import Mathlib

/-!
Shallow embedding of the schema-driven sanitization engine of
`node-raml-sanitize` (`src/raml-sanitize.js`, current variant).

JS values are modelled by `Value`.  JS numbers are modelled by `JNum`,
exact decimal rationals in the canonical form `mant * 10 ^ (-dexp)`
(trailing zero factors stripped), so that structural equality of `JNum`
coincides with JS `===` on numbers.  `NaN` and `±Infinity` are not values
of the model: the code only ever produces a number through `isFinite` /
`% 1 === 0` guards, both of which fail for them, so the number conversion
`jsToNumber` returns `none` in exactly those cases.  Double rounding and
the exponent forms of JS number printing are not modelled; no claim
depends on them.

Functions that can throw in JS are embedded as `Option`-valued functions,
`none` meaning the call threw.
-/

/-- Canonical decimal rational `mant * 10 ^ (-dexp)`: either the exponent is
zero or the mantissa is not divisible by 10 (hence never `0` with a positive
exponent).  This makes structural equality coincide with numeric equality. -/
structure JNum where
  mant : Int
  dexp : Nat
  canon : dexp = 0 ∨ ¬(mant % 10 = 0)

instance : DecidableEq JNum := fun a b =>
  if h : a.mant = b.mant ∧ a.dexp = b.dexp then
    isTrue (by cases a; cases b; cases h.1; cases h.2; rfl)
  else
    isFalse (fun e => h (by cases e; exact ⟨rfl, rfl⟩))

/-- Strip common factors of 10 out of `mant * 10 ^ (-dexp)`. -/
def stripTens : Int → Nat → Int × Nat
  | m, 0 => (m, 0)
  | m, d + 1 => if m % 10 = 0 then stripTens (m / 10) d else (m, d + 1)

theorem stripTens_canon (m : Int) (d : Nat) :
    (stripTens m d).2 = 0 ∨ ¬((stripTens m d).1 % 10 = 0) := by
  induction d generalizing m with
  | zero => exact Or.inl rfl
  | succ d ih =>
    unfold stripTens
    by_cases h : m % 10 = 0
    · simpa [h] using ih (m / 10)
    · simp [h]

/-- Build the canonical `JNum` with value `m * 10 ^ e`. -/
def mkJNum (m : Int) (e : Int) : JNum :=
  if 0 ≤ e then ⟨m * (Nat.pow 10 e.toNat : Nat), 0, Or.inl rfl⟩
  else
    let p := stripTens m (-e).toNat
    ⟨p.1, p.2, stripTens_canon m (-e).toNat⟩

/-- The canonical integer `JNum`. -/
def intJNum (m : Int) : JNum := ⟨m, 0, Or.inl rfl⟩

/-- A `JNum` is an integral value exactly when its exponent is zero
(canonicity: a positive exponent forces a mantissa not divisible by 10). -/
def JNum.isInt (n : JNum) : Bool := n.dexp = 0

/-- JS values.  `undefined` is not modelled separately: the current engine
only distinguishes `null`/`undefined` through `isEmpty`, and every empty
value flowing through it is `null` (the record sanitizer substitutes `null`
for missing fields and `JSON.parse` never yields `undefined`). -/
inductive Value where
  | null
  | bool (b : Bool)
  | num (n : JNum)
  | str (s : String)
  | arr (elems : List Value)
  | obj (fields : List (String × Value))
  | date (ms : Int)

/-- Source: `function isEmpty (value) { return value === null || value === undefined }` -/
def isEmpty : Value → Bool
  | .null => true
  | _ => false

/-- StrWhiteSpace characters recognised by the platform number parse. -/
def isJsWhitespace (c : Char) : Bool :=
  c = ' ' || c = '\t' || c = '\n' || c = '\r' || c = '\x0b' || c = '\x0c' ||
  c = ' ' || c = '﻿'

def digitVal (c : Char) : Option Nat :=
  if '0' ≤ c ∧ c ≤ '9' then some (c.toNat - 48) else none

def hexVal (c : Char) : Option Nat :=
  if '0' ≤ c ∧ c ≤ '9' then some (c.toNat - 48)
  else if 'a' ≤ c ∧ c ≤ 'f' then some (c.toNat - 87)
  else if 'A' ≤ c ∧ c ≤ 'F' then some (c.toNat - 55)
  else none

def octVal (c : Char) : Option Nat :=
  if '0' ≤ c ∧ c ≤ '7' then some (c.toNat - 48) else none

def binVal (c : Char) : Option Nat :=
  if c = '0' ∨ c = '1' then some (c.toNat - 48) else none

def digitsToNat (base : Nat) (ds : List Nat) : Nat :=
  ds.foldl (fun a d => a * base + d) 0

/-- Take a maximal run of digits (under the digit test `p`). -/
def takeDigits (p : Char → Option Nat) : List Char → List Nat × List Char
  | [] => ([], [])
  | c :: cs =>
    match p c with
    | some d => let r := takeDigits p cs; (d :: r.1, r.2)
    | none => ([], c :: cs)

/-- A decimal numeric literal after its sign `sgn` has been split off:
`digits* (dot digits*)? ((e|E) sign? digits+)?` with at least one digit
in the integer or fraction part.  `none` is `NaN`. -/
def parseDecTail (sgn : Int) (cs : List Char) : Option JNum :=
  let ipr := takeDigits digitVal cs
  let fpr : List Nat × List Char :=
    match ipr.2 with
    | '.' :: r => takeDigits digitVal r
    | _ => ([], ipr.2)
  if ipr.1 = [] ∧ fpr.1 = [] then none
  else
    let mant : Int := sgn * (digitsToNat 10 (ipr.1 ++ fpr.1) : Nat)
    match fpr.2 with
    | [] => some (mkJNum mant (-(fpr.1.length : Int)))
    | e :: r3 =>
      if e = 'e' ∨ e = 'E' then
        let sr : Int × List Char :=
          match r3 with
          | '+' :: r => (1, r)
          | '-' :: r => (-1, r)
          | r => (1, r)
        match takeDigits digitVal sr.2 with
        | ([], _) => none
        | (eds, r5) =>
          if r5 = [] then
            some (mkJNum mant (sr.1 * (digitsToNat 10 eds : Nat) - (fpr.1.length : Int)))
          else none
      else none

/-- A whole radix literal (after `0x`/`0o`/`0b`). -/
def parseRadix (p : Char → Option Nat) (base : Nat) (cs : List Char) : Option JNum :=
  match takeDigits p cs with
  | ([], _) => none
  | (ds, r) => if r = [] then some (intJNum (digitsToNat base ds)) else none

/-- A signed decimal literal, or `Infinity` (which is not finite, hence
`none` here: the engine only consumes numbers through `isFinite` and
`% 1 === 0`, which both fail on `NaN` and `±Infinity` alike). -/
def parseSignedDec (cs : List Char) : Option JNum :=
  let sr : Int × List Char :=
    match cs with
    | '+' :: r => (1, r)
    | '-' :: r => (-1, r)
    | r => (1, r)
  if sr.2 = "Infinity".data then none
  else parseDecTail sr.1 sr.2

/-- Platform model of the StringNumericLiteral grammar used by `isFinite`
and `Number` on strings: whitespace-trimmed; empty means `0`; radix
literals (unsigned only); otherwise a signed decimal or `Infinity`.
`none` models `NaN` or `±Infinity`. -/
def stringToNumber (s : String) : Option JNum :=
  let cs := ((s.data.dropWhile isJsWhitespace).reverse.dropWhile isJsWhitespace).reverse
  match cs with
  | [] => some (intJNum 0)
  | '0' :: c :: r =>
    if c = 'x' ∨ c = 'X' then parseRadix hexVal 16 r
    else if c = 'o' ∨ c = 'O' then parseRadix octVal 8 r
    else if c = 'b' ∨ c = 'B' then parseRadix binVal 2 r
    else parseSignedDec cs
  | _ => parseSignedDec cs

/-- Decimal digits of the fractional printing of a canonical `JNum`:
`mant.natAbs` printed with a point `dexp` places from the right. -/
def insertPoint (digits : String) (dexp : Nat) : String :=
  if dexp = 0 then digits
  else if digits.length > dexp then
    let k := digits.length - dexp
    String.mk (digits.data.take k) ++ "." ++ String.mk (digits.data.drop k)
  else
    "0." ++ String.mk (List.replicate (dexp - digits.length) '0') ++ digits

/-- Platform model of JS number printing for the values arising here:
sign, then the decimal digits of the mantissa with the point inserted.
The exponent notations JS uses for magnitudes above `1e21` / below `1e-7`
are not modelled (no claim depends on them). -/
def numToString (n : JNum) : String :=
  (if n.mant < 0 then "-" else "") ++ insertPoint (toString n.mant.natAbs) n.dexp

/-- Join strings with commas. -/
def commaJoin : List String → String
  | [] => ""
  | [s] => s
  | s :: rest => s ++ "," ++ commaJoin rest

/-- Fueled worker for `jsToString`: fuel is consumed once per array-nesting
level, keeping the recursion through nested elements structural (and hence
computable); a `null` element prints empty. -/
def jsToStringF : Nat → Value → String
  | _, .null => "null"
  | _, .bool b => cond b "true" "false"
  | _, .num n => numToString n
  | _, .str s => s
  | fuel + 1, .arr vs =>
    commaJoin (vs.map (fun v =>
      match v with
      | .null => ""
      | v2 => jsToStringF fuel v2))
  | 0, .arr _ => ""
  | _, .obj _ => "[object Object]"
  | _, .date ms => "Date " ++ toString ms

/-- Platform model of `String(value)`: `null` prints as `"null"`, arrays
join their stringified elements with commas (`null` elements print empty),
plain objects print `"[object Object]"`, and a `Date` prints as an opaque
platform string (modelled so that it neither number- nor JSON-parses).
The fixed nesting budget exceeds by far the recursion depth at which the
platform native stringification itself overflows the stack. -/
def jsToString (value : Value) : String := jsToStringF 1000000 value

/-- Platform model of `ToNumber` restricted to finite results: `none`
models `NaN` and `±Infinity` (the only consumers are `isFinite` and
`% 1 === 0`, which fail on both). -/
def jsToNumber : Value → Option JNum
  | .null => some (intJNum 0)
  | .bool b => some (intJNum (cond b 1 0))
  | .num n => some n
  | .str s => stringToNumber s
  | .date ms => some (intJNum ms)
  | .arr vs => stringToNumber (jsToString (.arr vs))
  | .obj fs => stringToNumber (jsToString (.obj fs))

/-- Platform model of `Date.parse`, simplified to full-string ISO dates
`YYYY-MM-DD`; anything else is unparsable (`NaN`).  The millisecond value
is a simple encoding of the fields; no claim depends on it. -/
def dateParse (s : String) : Option Int :=
  match s.data with
  | [y3, y2, y1, y0, '-', m1, m0, '-', d1, d0] =>
    match digitVal y3, digitVal y2, digitVal y1, digitVal y0,
          digitVal m1, digitVal m0, digitVal d1, digitVal d0 with
    | some a, some b, some c, some d, some e, some f, some g, some h =>
      let year := ((a * 10 + b) * 10 + c) * 10 + d
      let month := e * 10 + f
      let day := g * 10 + h
      if 1 ≤ month ∧ month ≤ 12 ∧ 1 ≤ day ∧ day ≤ 31 then
        some (((year * 372 + (month - 1) * 31 + (day - 1)) : Nat) * 86400000)
      else none
    | _, _, _, _, _, _, _, _ => none
  | _ => none

/-! JSON parser (platform model of `JSON.parse`).  Recursive descent with a
fuel bound on nesting; `jsonParse` passes more fuel than the input length,
which is sufficient since every level of nesting consumes a character. -/

def jsonSkipWs (cs : List Char) : List Char :=
  cs.dropWhile (fun c => c = ' ' || c = '\t' || c = '\n' || c = '\r')

/-- Single-character JSON string escapes (the `\uXXXX` form is not
modelled; no claim exercises it). -/
def jsonEscChar : Char → Option Char
  | '"' => some '"'
  | '\\' => some '\\'
  | '/' => some '/'
  | 'b' => some '\x08'
  | 'f' => some '\x0c'
  | 'n' => some '\n'
  | 'r' => some '\r'
  | 't' => some '\t'
  | _ => none

/-- Characters of a JSON string after the opening quote, with escapes. -/
def jsonStringChars : List Char → Option (String × List Char)
  | [] => none
  | '"' :: rest => some ("", rest)
  | '\\' :: e :: rest =>
    match jsonEscChar e with
    | some ch => (jsonStringChars rest).map (fun p => (ch.toString ++ p.1, p.2))
    | none => none
  | c :: rest =>
    if c.toNat < 32 then none
    else (jsonStringChars rest).map (fun p => (c.toString ++ p.1, p.2))

def jsonNumber (cs : List Char) : Option (JNum × List Char) :=
  let sr : Int × List Char :=
    match cs with
    | '-' :: r => (-1, r)
    | r => (1, r)
  match takeDigits digitVal sr.2 with
  | ([], _) => none
  | (ip, r1) =>
    if ip.length > 1 ∧ ip.headD 1 = 0 then none
    else
      let fpr : Option (List Nat × List Char) :=
        match r1 with
        | '.' :: r =>
          match takeDigits digitVal r with
          | ([], _) => none
          | (ds, rr) => some (ds, rr)
        | _ => some ([], r1)
      match fpr with
      | none => none
      | some (fp, r2) =>
        let epr : Option (Int × List Char) :=
          match r2 with
          | e :: r3 =>
            if e = 'e' ∨ e = 'E' then
              let esr : Int × List Char :=
                match r3 with
                | '+' :: r => (1, r)
                | '-' :: r => (-1, r)
                | r => (1, r)
              match takeDigits digitVal esr.2 with
              | ([], _) => none
              | (eds, r5) => some (esr.1 * (digitsToNat 10 eds : Nat), r5)
            else some (0, r2)
          | [] => some (0, [])
        match epr with
        | none => none
        | some (ex, r6) =>
          some (mkJNum (sr.1 * (digitsToNat 10 (ip ++ fp) : Nat)) (ex - (fp.length : Int)), r6)

mutual
def jsonVal : Nat → List Char → Option (Value × List Char)
  | 0, _ => none
  | fuel + 1, cs =>
    match jsonSkipWs cs with
    | [] => none
    | '{' :: rest => (jsonObj fuel rest).map (fun p => (Value.obj p.1, p.2))
    | '[' :: rest => (jsonArr fuel rest).map (fun p => (Value.arr p.1, p.2))
    | '"' :: rest => (jsonStringChars rest).map (fun p => (Value.str p.1, p.2))
    | 't' :: 'r' :: 'u' :: 'e' :: rest => some (.bool true, rest)
    | 'f' :: 'a' :: 'l' :: 's' :: 'e' :: rest => some (.bool false, rest)
    | 'n' :: 'u' :: 'l' :: 'l' :: rest => some (.null, rest)
    | c :: rest =>
      if c = '-' ∨ ('0' ≤ c ∧ c ≤ '9') then
        (jsonNumber (c :: rest)).map (fun p => (Value.num p.1, p.2))
      else none

def jsonArr : Nat → List Char → Option (List Value × List Char)
  | 0, _ => none
  | fuel + 1, cs =>
    match jsonSkipWs cs with
    | ']' :: rest => some ([], rest)
    | cs2 =>
      match jsonVal fuel cs2 with
      | none => none
      | some (v, r1) =>
        match jsonArrTail fuel r1 with
        | none => none
        | some (vs, r2) => some (v :: vs, r2)

def jsonArrTail : Nat → List Char → Option (List Value × List Char)
  | 0, _ => none
  | fuel + 1, cs =>
    match jsonSkipWs cs with
    | ']' :: rest => some ([], rest)
    | ',' :: rest =>
      match jsonVal fuel rest with
      | none => none
      | some (v, r1) =>
        match jsonArrTail fuel r1 with
        | none => none
        | some (vs, r2) => some (v :: vs, r2)
    | _ => none

def jsonObj : Nat → List Char → Option (List (String × Value) × List Char)
  | 0, _ => none
  | fuel + 1, cs =>
    match jsonSkipWs cs with
    | '}' :: rest => some ([], rest)
    | cs2 =>
      match jsonMember fuel cs2 with
      | none => none
      | some (kv, r1) =>
        match jsonObjTail fuel r1 with
        | none => none
        | some (kvs, r2) => some (kv :: kvs, r2)

def jsonObjTail : Nat → List Char → Option (List (String × Value) × List Char)
  | 0, _ => none
  | fuel + 1, cs =>
    match jsonSkipWs cs with
    | '}' :: rest => some ([], rest)
    | ',' :: rest =>
      match jsonMember fuel rest with
      | none => none
      | some (kv, r1) =>
        match jsonObjTail fuel r1 with
        | none => none
        | some (kvs, r2) => some (kv :: kvs, r2)
    | _ => none

def jsonMember : Nat → List Char → Option ((String × Value) × List Char)
  | 0, _ => none
  | fuel + 1, cs =>
    match jsonSkipWs cs with
    | '"' :: rest =>
      match jsonStringChars rest with
      | none => none
      | some (k, r1) =>
        match jsonSkipWs r1 with
        | ':' :: r2 =>
          match jsonVal fuel r2 with
          | none => none
          | some (v, r3) => some ((k, v), r3)
        | _ => none
    | _ => none
end

/-- Platform model of `JSON.parse` on a string argument. -/
def jsonParse (s : String) : Option Value :=
  match jsonVal (s.length + 2) s.data with
  | none => none
  | some (v, rest) => if jsonSkipWs rest = [] then some v else none

/-! Type coercers (`sanitize.TYPES`).  Each models one of the `toX`
functions of the source; `none` models a thrown error. -/

/-- Source: `function toBoolean (value) { return [0, false, "", "0", "false"].indexOf(value) === -1 }`
`indexOf` compares with `===`; on the canonical `JNum` representation the
number comparison is the mantissa/exponent test.  Never fails. -/
def toBoolean (value : Value) : Option Value :=
  let inList : Bool :=
    match value with
    | .num n => n.mant = 0 && n.dexp = 0
    | .bool b => !b
    | .str s => s = "" || s = "0" || s = "false"
    | _ => false
  some (.bool (!inList))

/-- Coercer `toNumber`: `isFinite(value)` guards `Number(value)`; throws otherwise. -/
def toNumber (value : Value) : Option Value :=
  match jsToNumber value with
  | some n => some (.num n)
  | none => none

/-- Coercer `toInteger`: `value % 1 === 0` guards `Number(value)`; throws otherwise.
`x % 1 === 0` holds exactly for finite integral `ToNumber` images. -/
def toInteger (value : Value) : Option Value :=
  match jsToNumber value with
  | some n => if n.isInt then some (.num n) else none
  | none => none

/-- Coercer `toDate`: a `Date` value passes through; otherwise `Date.parse` must
succeed and a fresh date is built. -/
def toDate (value : Value) : Option Value :=
  match value with
  | .date ms => some (.date ms)
  | v =>
    match dateParse (jsToString v) with
    | some ms => some (.date ms)
    | none => none

/-- Coercer `toArray`: an array passes through; otherwise `JSON.parse` (on the
stringified value) must succeed and yield an array. -/
def toArray (value : Value) : Option Value :=
  match value with
  | .arr vs => some (.arr vs)
  | v =>
    match jsonParse (jsToString v) with
    | some (.arr vs) => some (.arr vs)
    | _ => none

/-- Coercer `toObject`: a plain object passes through; otherwise `JSON.parse` (on
the stringified value) must succeed and yield a plain object.  In JS a
`null` argument makes `value.constructor` throw, which the chain catches;
here that path falls through to the parse of `"null"`, which is not an
object — the same failure result. -/
def toObject (value : Value) : Option Value :=
  match value with
  | .obj fs => some (.obj fs)
  | v =>
    match jsonParse (jsToString v) with
    | some (.obj fs) => some (.obj fs)
    | _ => none

/-- Builtin `String` as a coercer: stringification never fails. -/
def toStringCoercer (value : Value) : Option Value :=
  some (.str (jsToString value))

/-! The schema configuration model.  A config is the object produced for
one field (the engine reads `type`, `default`, `items` and treats every
other key as a potential rule name); `extra` holds those remaining keys in
insertion order.  JS key enumeration order is insertion order; the model
fixes the structured keys first — no claim depends on the relative order
of rule applications. -/

inductive TypeSpec where
  | name (s : String)
  | union (names : List String)
deriving DecidableEq

inductive Config where
  | mk (type : Option TypeSpec) (dflt : Option Value)
       (items : Option (List Config)) (extra : List (String × Value))

def Config.type : Config → Option TypeSpec
  | .mk t _ _ _ => t

def Config.dflt : Config → Option Value
  | .mk _ d _ _ => d

def Config.items : Config → Option (List Config)
  | .mk _ _ i _ => i

def Config.extra : Config → List (String × Value)
  | .mk _ _ _ e => e

/-- Values stored under config keys (for rule factories): plain values,
the `type` spec, or the `items` config(s). -/
inductive ConfigVal where
  | val (v : Value)
  | tyspec (t : TypeSpec)
  | cfgs (cs : List Config)

abbrev Record := List (String × Value)

/-- A function of a sanitization chain `(value, key, object) -> value`;
`none` models a thrown error. -/
abbrev ChainFn := Value → String → Record → Option Value

abbrev Coercion := Value → Option Value

/-- A rule factory `(ruleValue, ruleName, config) -> chain function`. -/
abbrev RuleFactory := ConfigVal → String → Config → ChainFn

abbrev Registry := List (String × RuleFactory)

abbrev TypeTable := List (String × Coercion)

/-- First-match association-list lookup (JS object property access: keys
are unique in an object, so first match is the match). -/
def lookupKey {α : Type} (l : List (String × α)) (k : String) : Option α :=
  match l with
  | [] => none
  | p :: rest => if p.1 = k then some p.2 else lookupKey rest k

/-- Table `sanitize.TYPES`. -/
def TYPES : TypeTable :=
  [("string", toStringCoercer),
   ("number", toNumber),
   ("integer", toInteger),
   ("boolean", toBoolean),
   ("array", toArray),
   ("object", toObject),
   ("date", toDate),
   ("dateTime", toDate),
   ("dateTimeOnly", toDate)]

/-- Test `Array.isArray(config.type)`. -/
def isUnion (c : Config) : Bool :=
  match c.type with
  | some (.union _) => true
  | _ => false

/-- Names `isUnion ? config.type : [config.type]`.  An absent `type` gives
`[undefined]` in JS, whose table lookup fails; modelled as no names. -/
def typesNames (c : Config) : List String :=
  match c.type with
  | some (.union ns) => ns
  | some (.name s) => [s]
  | none => []

/-- The type-coercion functions pushed first onto the chain: one per
declared type name registered in the types table. -/
def typeFns (types : TypeTable) (c : Config) : List ChainFn :=
  (typesNames c).filterMap
    (fun n => (lookupKey types n).map (fun co => fun v _ _ => co v))

/-- The own keys of the config object. -/
def configKeys (c : Config) : List String :=
  (if c.type.isSome then ["type"] else []) ++
  (if c.dflt.isSome then ["default"] else []) ++
  (if c.items.isSome then ["items"] else []) ++
  c.extra.map Prod.fst

/-- The value stored under a config key. -/
def configGet (c : Config) (k : String) : ConfigVal :=
  if k = "type" then ((c.type).map ConfigVal.tyspec).getD (.val .null)
  else if k = "default" then ((c.dflt).map ConfigVal.val).getD (.val .null)
  else if k = "items" then ((c.items).map ConfigVal.cfgs).getD (.val .null)
  else ((lookupKey c.extra k).map ConfigVal.val).getD (.val .null)

/-- The keys the compiler feeds to the rule registry:
`Object.keys(config).filter(rule => rule !== "type" && rule !== "default")`
— note that only `type` and `default` are filtered out. -/
def ruleKeys (c : Config) : List String :=
  (configKeys c).filter (fun k => !(k = "type" || k = "default"))

/-- The rule functions pushed after the type coercers: for each
non-filtered key with a registered factory, the factory is applied to
`(config[rule], rule, config)`. -/
def ruleFns (rules : Registry) (c : Config) : List ChainFn :=
  (ruleKeys c).filterMap
    (fun k => (lookupKey rules k).map (fun factory => factory (configGet c k) k c))

/-- The rule-registry keys actually looked up and used for a config. -/
def usedRuleKeys (rules : Registry) (c : Config) : List String :=
  (ruleKeys c).filter (fun k => (lookupKey rules k).isSome)

/-- The whole chain: type coercers first, then rule functions. -/
def chainFns (rules : Registry) (types : TypeTable) (c : Config) : List ChainFn :=
  typeFns types c ++ ruleFns rules c

/-- Runner `fns.every(fnsRunner)`: run the functions in order on the accumulated
value; the first one that throws stops the iteration, keeping the value
accumulated so far. -/
def runEvery (fns : List ChainFn) (value : Value) (key : String) (object : Record) : Value :=
  match fns with
  | [] => value
  | fn :: rest =>
    match fn value key object with
    | some v2 => runEvery rest v2 key object
    | none => value

/-- Runner `fns.some(fnsRunner)`: a throwing function leaves the value unchanged
and the iteration continues; the first function that succeeds stops the
iteration with its result. -/
def runSome (fns : List ChainFn) (value : Value) (key : String) (object : Record) : Value :=
  match fns with
  | [] => value
  | fn :: rest =>
    match fn value key object with
    | some v2 => v2
    | none => runSome rest value key object

/-- The inner `sanitize` closure of `toSanitization`:
`isUnion ? fns.some(fnsRunner) : fns.every(fnsRunner)`. -/
def sanitizeChain (rules : Registry) (types : TypeTable) (c : Config)
    (value : Value) (key : String) (object : Record) : Value :=
  if isUnion c then runSome (chainFns rules types c) value key object
  else runEvery (chainFns rules types c) value key object

/-- Wrap `Array.isArray(value) ? value : [value]` (the array branch). -/
def wrapArray : Value → List Value
  | .arr vs => vs
  | v => [v]

/-- Post-processing of the mapped item results:
`value = value.some(isEmpty) ? null : value` (and `none` propagates a
nonterminating element). -/
def itemsResult : Option (List Value) → Option Value
  | none => none
  | some vals => some (if vals.any isEmpty then .null else .arr vals)

/-- The `items` configs are structurally smaller than their config. -/
theorem Config.sizeOf_items_lt (c : Config) (l : List Config) (h : c.items = some l) :
    sizeOf l < sizeOf c := by
  cases c with
  | mk t d i e =>
    cases i with
    | none => simp [Config.items] at h
    | some l2 =>
      simp [Config.items] at h
      subst h
      simp
      omega

mutual
/-- The per-config `sanitization` closure of `toSanitization`.  An empty
value with a declared default recursively sanitizes the default in the JS
source; when the declared default is itself empty that recursion never
returns (`sanitization(config.default)` sees an empty value and a declared
default again, forever) — modelled by `none`.  A non-empty default makes
the recursive call take the non-empty branch at once, which is
`sanitizationBody`. -/
def sanitization (rules : Registry) (types : TypeTable) (c : Config)
    (value : Value) (key : String) (object : Record) : Option Value :=
  if isEmpty value then
    match c.dflt with
    | some d =>
      if isEmpty d then none
      else sanitizationBody rules types c d key object
    | none => some value
  else sanitizationBody rules types c value key object
termination_by (sizeOf c, 0, 3)

/-- The non-empty-value flow of `sanitization`: run the chain, then the
array/items handling. -/
def sanitizationBody (rules : Registry) (types : TypeTable) (c : Config)
    (value : Value) (key : String) (object : Record) : Option Value :=
  let v1 := sanitizeChain rules types c value key object
  if c.type = some (.name "array") then
    let wrapped := wrapArray v1
    match _hit : c.items with
    | some itemConfigs =>
      itemsResult (sanitizeItems rules types itemConfigs wrapped key object)
    | none => some (.arr wrapped)
  else some v1
termination_by (sizeOf c, 0, 2)
decreasing_by
  exact Prod.Lex.left _ _ (Config.sizeOf_items_lt c itemConfigs _hit)

/-- Map `value.map(val => sanitizeItem(val, key, object))`, each element going
through the sanitizer compiled from `config.items`. -/
def sanitizeItems (rules : Registry) (types : TypeTable) (configs : List Config) :
    List Value → String → Record → Option (List Value)
  | [], _, _ => some []
  | v :: rest, key, object =>
    match toSanitization rules types configs v key object with
    | none => none
    | some r =>
      match sanitizeItems rules types configs rest key object with
      | none => none
      | some rs => some (r :: rs)
termination_by vals _k _o => (sizeOf configs, sizeOf vals, 0)

/-- The function returned by `toSanitization`: the `some` callback assigns
`result` but returns `undefined`, so the iteration never short-circuits —
every per-config sanitization runs (on the original value) and the LAST
result is kept; with no configs the original value is returned. -/
def toSanitization (rules : Registry) (types : TypeTable) (configs : List Config)
    (value : Value) (key : String) (object : Record) : Option Value :=
  match sanitizeAll rules types configs value key object with
  | none => none
  | some results => some (results.getLastD value)
termination_by (sizeOf configs, 0, 1)

/-- Run every per-config sanitization in order on the original value,
collecting the results (a nonterminating one stops everything, as in JS). -/
def sanitizeAll (rules : Registry) (types : TypeTable) :
    List Config → Value → String → Record → Option (List Value)
  | [], _, _, _ => some []
  | c :: rest, value, key, object =>
    match sanitization rules types c value key object with
    | none => none
    | some r =>
      match sanitizeAll rules types rest value key object with
      | none => none
      | some rs => some (r :: rs)
termination_by cs _v _k _o => (sizeOf cs, 0, 0)
end

/-! A fuel-indexed mirror of the sanitization functions: the direct
translation of the JS call tree, where every (mutually) recursive call
costs one unit of fuel and `none` also covers fuel exhaustion.  It makes
nontermination provable: an input diverges exactly when every fuel bound
returns `none`.  In particular the empty-default recursion
`sanitization(config.default)` shows up here as a literal self-call. -/

mutual
def sanitizationN : Nat → Registry → TypeTable → Config → Value → String → Record → Option Value
  | 0, _, _, _, _, _, _ => none
  | n + 1, rules, types, c, value, key, object =>
    if isEmpty value then
      match c.dflt with
      | some d => sanitizationN n rules types c d key object
      | none => some value
    else sanitizationBodyN n rules types c value key object

def sanitizationBodyN : Nat → Registry → TypeTable → Config → Value → String → Record → Option Value
  | 0, _, _, _, _, _, _ => none
  | n + 1, rules, types, c, value, key, object =>
    let v1 := sanitizeChain rules types c value key object
    if c.type = some (.name "array") then
      let wrapped := wrapArray v1
      match c.items with
      | some itemConfigs =>
        itemsResult (sanitizeItemsN n rules types itemConfigs wrapped key object)
      | none => some (.arr wrapped)
    else some v1

def sanitizeItemsN : Nat → Registry → TypeTable → List Config → List Value → String → Record → Option (List Value)
  | 0, _, _, _, _, _, _ => none
  | n + 1, rules, types, configs, vals, key, object =>
    match vals with
    | [] => some []
    | v :: rest =>
      match toSanitizationN n rules types configs v key object with
      | none => none
      | some r =>
        match sanitizeItemsN n rules types configs rest key object with
        | none => none
        | some rs => some (r :: rs)

def toSanitizationN : Nat → Registry → TypeTable → List Config → Value → String → Record → Option Value
  | 0, _, _, _, _, _, _ => none
  | n + 1, rules, types, configs, value, key, object =>
    match sanitizeAllN n rules types configs value key object with
    | none => none
    | some results => some (results.getLastD value)

def sanitizeAllN : Nat → Registry → TypeTable → List Config → Value → String → Record → Option (List Value)
  | 0, _, _, _, _, _, _ => none
  | n + 1, rules, types, configs, value, key, object =>
    match configs with
    | [] => some []
    | c :: rest =>
      match sanitizationN n rules types c value key object with
      | none => none
      | some r =>
        match sanitizeAllN n rules types rest value key object with
        | none => none
        | some rs => some (r :: rs)
end

/-! The record level: the field dispatcher `sanitize(elements)` and the
record sanitizer it returns. -/

/-- A schema-bearing element as consumed by the dispatcher, reduced to
what the engine reads: its name, the `properties` of its resolved schema
(empty list when absent), and the sanitization config the adapter
(`elementToSchema`) derives for it. -/
inductive Element where
  | mk (name : String) (properties : List Element) (config : Config)

def Element.name : Element → String
  | .mk n _ _ => n

abbrev FieldFn := Value → String → Record → Option Value

/-- Association-list update with JS object-assignment semantics: an
existing key keeps its position and gets the new value, a new key is
appended. -/
def assocSet {α : Type} (l : List (String × α)) (k : String) (v : α) : List (String × α) :=
  if l.any (fun p => p.1 = k) then
    l.map (fun p => if p.1 = k then (k, v) else p)
  else l ++ [(k, v)]

/-- Test `Object.prototype.hasOwnProperty.call(input, param)`. -/
def hasOwn {α : Type} (l : List (String × α)) (k : String) : Bool :=
  l.any (fun p => p.1 = k)

/-- Access `input[param]` for a present key. -/
def recGet (r : Record) (k : String) : Value :=
  (lookupKey r k).getD .null

/-- Property access on the value handed to a nested record sanitizer
(`input = input || {}` and then own-property reads): an object contributes
its own fields; `null` and primitive values are modelled as having no own
properties (string index/length properties are not modelled). -/
def inputRecord : Value → Record
  | .obj fs => fs
  | _ => []

/-- The loop body of the returned record sanitizer: iterate the compiled
field map in order over a fresh output record.  A missing field is
sanitized from `null`; a present field is always included, a missing one
only when its sanitized value is not `null`. -/
def runFields : List (String × FieldFn) → Record → Record → Option Record
  | [], _, sanitized => some sanitized
  | (param, fn) :: rest, input, sanitized =>
    let hasField := hasOwn input param
    let value := if hasField then recGet input param else .null
    match fn value param input with
    | none => none
    | some sanValue =>
      runFields rest input
        (if hasField || !(isEmpty sanValue) then assocSet sanitized param sanValue
         else sanitized)

mutual
/-- Dispatcher `sanitize(elements)` applied to an input: zero elements give the
constant empty record; otherwise the compiled field map runs over the
input.  (`input = input || {}`: see `inputRecord`.) -/
def sanitizeRecord (rules : Registry) (types : TypeTable)
    (elements : List Element) (input : Value) : Option Record :=
  if elements.length < 1 then some []
  else runFields (buildSanitizations rules types elements []) (inputRecord input) []
termination_by (sizeOf elements, 1)

/-- Loop `elements.forEach(el => { sanitizations[el.name.value()] = ... })`:
an element whose schema has nonempty `properties` gets a nested record
sanitizer (its extra call arguments are ignored, as in JS); otherwise
`sanitize.rule`, i.e. the `toSanitization` chain of its config. -/
def buildSanitizations (rules : Registry) (types : TypeTable) :
    List Element → List (String × FieldFn) → List (String × FieldFn)
  | [], acc => acc
  | .mk nm props cfg :: rest, acc =>
    let fn : FieldFn :=
      if props.length > 0 then
        fun v _ _ => (sanitizeRecord rules types props v).map Value.obj
      else
        fun v k o => toSanitization rules types [cfg] v k o
    buildSanitizations rules types rest (assocSet acc nm fn)
termination_by els _acc => (sizeOf els, 0)
end

/-! Concrete schema configs used by the claims. -/

def intCfg : Config := .mk (some (.name "integer")) none none []
def numCfg : Config := .mk (some (.name "number")) none none []
def strCfg : Config := .mk (some (.name "string")) none none []
def boolCfg : Config := .mk (some (.name "boolean")) none none []
def arrCfg : Config := .mk (some (.name "array")) none none []
def arrIntCfg : Config := .mk (some (.name "array")) none (some [intCfg]) []
def unionIntStrCfg : Config := .mk (some (.union ["integer", "string"])) none none []
def dfltNullCfg : Config := .mk (some (.name "string")) (some .null) none []
def dfltTestCfg : Config := .mk (some (.name "string")) (some (.str "test")) none []

/-- The chain attempt fails outright on this value: for a single type the
first function throws (stopping `every` before any transformation), for a
union every function throws (so `some` finds no success). -/
def chainStalls (rules : Registry) (types : TypeTable) (c : Config)
    (v : Value) (k : String) (o : Record) : Bool :=
  if isUnion c then (chainFns rules types c).all (fun fn => (fn v k o).isNone)
  else
    match chainFns rules types c with
    | [] => false
    | fn :: _ => (fn v k o).isNone


/-! Demonstration registries for the reserved-key claim: factories whose
produced functions mark their application. -/

def itemsMarkFactory : RuleFactory :=
  fun _ _ _ => fun _ _ _ => some (.str "items-rule-applied")

def itemsRuleRegistry : Registry := [("items", itemsMarkFactory)]

def itemsKeyCfg : Config := .mk (some (.name "string")) none (some []) []

def propsMarkFactory : RuleFactory :=
  fun _ _ _ => fun _ _ _ => some (.str "properties-rule-applied")

def propsRuleRegistry : Registry := [("properties", propsMarkFactory)]

def propsKeyCfg : Config := .mk (some (.name "string")) none none [("properties", .null)]


/-- The key list of an association list (the own keys of the object). -/
def keysOf {α : Type} (l : List (String × α)) : List String := l.map Prod.fst


/-- Soundness of the fueled mirror. -/
theorem sanitizationN_sound (n : Nat) (rules : Registry) (types : TypeTable) :
    (∀ c v k o x, sanitizationN n rules types c v k o = some x →
      sanitization rules types c v k o = some x) ∧
    (∀ c v k o x, sanitizationBodyN n rules types c v k o = some x →
      sanitizationBody rules types c v k o = some x) ∧
    (∀ cs vs k o xs, sanitizeItemsN n rules types cs vs k o = some xs →
      sanitizeItems rules types cs vs k o = some xs) ∧
    (∀ cs v k o x, toSanitizationN n rules types cs v k o = some x →
      toSanitization rules types cs v k o = some x) ∧
    (∀ cs v k o xs, sanitizeAllN n rules types cs v k o = some xs →
      sanitizeAll rules types cs v k o = some xs) := by
  induction n with
  | zero =>
    refine ⟨?_, ?_, ?_, ?_, ?_⟩ <;> intro _ _ _ _ _ h <;>
      simp [sanitizationN, sanitizationBodyN, sanitizeItemsN, toSanitizationN, sanitizeAllN] at h
  | succ n ih =>
    obtain ⟨ih1, ih2, ih3, ih4, ih5⟩ := ih
    refine ⟨?_, ?_, ?_, ?_, ?_⟩
    · intro c v k o x h
      simp only [sanitizationN] at h
      rw [sanitization]
      by_cases he : isEmpty v
      · simp only [he, if_true] at h ⊢
        cases hd : c.dflt with
        | none => rw [hd] at h; exact h
        | some d =>
          rw [hd] at h
          have hs := ih1 c d k o x h
          show (if isEmpty d = true then none else sanitizationBody rules types c d k o) = some x
          by_cases hde : isEmpty d
          · exfalso
            rw [sanitization] at hs
            simp only [hde, if_true, hd] at hs
            exact Option.noConfusion hs
          · simp only [hde, if_false]
            rw [sanitization] at hs
            simpa only [hde, if_false] using hs
      · simp only [he, if_false] at h ⊢
        exact ih2 c v k o x h
    · intro c v k o x h
      simp only [sanitizationBodyN] at h
      rw [sanitizationBody]
      cases c with
      | mk ty dflt itemsOpt extra =>
        by_cases hty : ty = some (TypeSpec.name "array")
        · subst hty
          cases itemsOpt with
          | none => exact h
          | some itemConfigs =>
            replace h : itemsResult (sanitizeItemsN n rules types itemConfigs
                (wrapArray (sanitizeChain rules types
                  (Config.mk (some (.name "array")) dflt (some itemConfigs) extra) v k o)) k o) = some x := h
            show itemsResult (sanitizeItems rules types itemConfigs
                (wrapArray (sanitizeChain rules types
                  (Config.mk (some (.name "array")) dflt (some itemConfigs) extra) v k o)) k o) = some x
            cases hitems : sanitizeItemsN n rules types itemConfigs
                (wrapArray (sanitizeChain rules types
                  (Config.mk (some (.name "array")) dflt (some itemConfigs) extra) v k o)) k o with
            | none => rw [hitems] at h; exact Option.noConfusion h
            | some vals =>
              rw [hitems] at h
              rw [ih3 _ _ _ _ _ hitems]
              exact h
        · simp only [Config.type] at h ⊢
          simp only [if_neg hty] at h ⊢
          exact h
    · intro cs vs k o xs h
      simp only [sanitizeItemsN] at h
      cases vs with
      | nil => rw [sanitizeItems]; exact h
      | cons v rest =>
        rw [sanitizeItems]
        replace h : (match toSanitizationN n rules types cs v k o with
          | none => none
          | some r =>
            match sanitizeItemsN n rules types cs rest k o with
            | none => none
            | some rs => some (r :: rs)) = some xs := h
        cases h1 : toSanitizationN n rules types cs v k o with
        | none => rw [h1] at h; exact Option.noConfusion h
        | some r =>
          rw [h1] at h
          rw [ih4 _ _ _ _ _ h1]
          cases h2 : sanitizeItemsN n rules types cs rest k o with
          | none => rw [h2] at h; exact Option.noConfusion h
          | some rs =>
            rw [h2] at h
            rw [ih3 _ _ _ _ _ h2]
            exact h
    · intro cs v k o x h
      simp only [toSanitizationN] at h
      rw [toSanitization]
      cases h1 : sanitizeAllN n rules types cs v k o with
      | none => rw [h1] at h; exact Option.noConfusion h
      | some results =>
        rw [h1] at h
        rw [ih5 _ _ _ _ _ h1]
        exact h
    · intro cs v k o xs h
      simp only [sanitizeAllN] at h
      cases cs with
      | nil => rw [sanitizeAll]; exact h
      | cons c rest =>
        rw [sanitizeAll]
        replace h : (match sanitizationN n rules types c v k o with
          | none => none
          | some r =>
            match sanitizeAllN n rules types rest v k o with
            | none => none
            | some rs => some (r :: rs)) = some xs := h
        cases h1 : sanitizationN n rules types c v k o with
        | none => rw [h1] at h; exact Option.noConfusion h
        | some r =>
          rw [h1] at h
          rw [ih1 _ _ _ _ _ h1]
          cases h2 : sanitizeAllN n rules types rest v k o with
          | none => rw [h2] at h; exact Option.noConfusion h
          | some rs =>
            rw [h2] at h
            rw [ih5 _ _ _ _ _ h2]
            exact h

theorem runEvery_first_none (fn : ChainFn) (fns : List ChainFn) (v : Value) (k : String)
    (o : Record) (h : fn v k o = none) : runEvery (fn :: fns) v k o = v := by
  simp [runEvery, h]

theorem runSome_all_none (fns : List ChainFn) (v : Value) (k : String) (o : Record)
    (h : ∀ fn ∈ fns, fn v k o = none) : runSome fns v k o = v := by
  induction fns with
  | nil => rfl
  | cons fn rest ih =>
    rw [runSome, h fn (List.mem_cons_self fn rest)]
    exact ih (fun f hf => h f (List.mem_cons_of_mem fn hf))

theorem runSome_first_some (fn : ChainFn) (fns : List ChainFn) (v w : Value) (k : String)
    (o : Record) (h : fn v k o = some w) : runSome (fn :: fns) v k o = w := by
  simp [runSome, h]

/-- A stalled chain leaves the value unchanged. -/
theorem chainStalls_run (rules : Registry) (types : TypeTable) (c : Config) (v : Value)
    (k : String) (o : Record) (h : chainStalls rules types c v k o = true) :
    sanitizeChain rules types c v k o = v := by
  rw [chainStalls] at h
  rw [sanitizeChain]
  by_cases hu : isUnion c
  · simp only [hu, if_true] at h ⊢
    refine runSome_all_none _ _ _ _ (fun fn hf => ?_)
    have := List.all_eq_true.mp h fn hf
    exact Option.isNone_iff_eq_none.mp this
  · simp only [hu, if_false, Bool.false_eq_true] at h ⊢
    cases hc : chainFns rules types c with
    | nil => rw [hc] at h; exact absurd h (by simp)
    | cons fn rest =>
      rw [hc] at h
      exact runEvery_first_none fn rest v k o (Option.isNone_iff_eq_none.mp h)

/-- Applying `toSanitization` to a single config is the sanitization of that config. -/
theorem toSanitization_single (rules : Registry) (types : TypeTable) (c : Config)
    (v : Value) (k : String) (o : Record) :
    toSanitization rules types [c] v k o = sanitization rules types c v k o := by
  cases h : sanitization rules types c v k o with
  | none => simp [toSanitization, sanitizeAll, h]
  | some r => simp [toSanitization, sanitizeAll, h]

/-- C1 (amended): when the chain attempt fails outright on a non-empty
input, the compiled field sanitizer never raises and returns the original
input value unchanged — except that a schema of type `array` still wraps
the (unchanged) value into a single-element array. -/
theorem c1_failure_returns_original (rules : Registry) (types : TypeTable) (c : Config)
    (v : Value) (k : String) (o : Record)
    (hv : isEmpty v = false) (hst : chainStalls rules types c v k o = true) :
    (¬ c.type = some (.name "array") → toSanitization rules types [c] v k o = some v) ∧
    (c.type = some (.name "array") → c.items = none →
      toSanitization rules types [c] v k o = some (.arr (wrapArray v))) := by
  rw [toSanitization_single]
  rw [sanitization]
  simp only [hv, Bool.false_eq_true, if_false]
  rw [sanitizationBody]
  rw [chainStalls_run rules types c v k o hst]
  constructor
  · intro hty
    simp only [if_neg hty]
  · intro hty hit
    simp only [if_pos hty]
    cases c with
    | mk t d i e =>
      simp only [Config.items] at hit
      subst hit
      rfl

/-- C1 witness: schema `{type: integer}`, input `"abc"` gives back `"abc"`. -/
theorem c1_witness :
    toSanitization [] TYPES [intCfg] (.str "abc") "p" [] = some (.str "abc") :=
  (c1_failure_returns_original [] TYPES intCfg (.str "abc") "p" [] (by decide) (by rfl)).1
    (by decide)

/-- C1 counterexample: schema `{type: array}`, input `"abc"`: the coercion
fails (a structural mismatch) yet the result is `["abc"]`, not the
original `"abc"` unchanged. -/
theorem c1_counterexample :
    toSanitization [] TYPES [arrCfg] (.str "abc") "p" [] = some (.arr [.str "abc"]) ∧
    ¬ toSanitization [] TYPES [arrCfg] (.str "abc") "p" [] = some (.str "abc") := by
  have h : toSanitization [] TYPES [arrCfg] (.str "abc") "p" [] = some (.arr [.str "abc"]) :=
    (sanitizationN_sound 9 [] TYPES).2.2.2.1 [arrCfg] (.str "abc") "p" [] _ rfl
  refine ⟨h, fun hcontra => ?_⟩
  rw [h] at hcontra
  exact Value.noConfusion (Option.some.inj hcontra)

/-- A schema whose declared default is `null` makes the per-field
sanitization of an empty input recurse forever: no call-stack bound
returns a result. -/
theorem sanitizationN_defaultNull_diverges (k : String) (o : Record) :
    ∀ n, sanitizationN n [] TYPES dfltNullCfg .null k o = none := by
  intro n
  induction n with
  | zero => rfl
  | succ n ih =>
    rw [sanitizationN]
    simpa using ih

/-- C2: the compiled field sanitizer of `{type: string, default: null}`
applied to a missing (`null`) input never terminates — the recursion
`sanitization(config.default)` sees an empty value with a declared default
again at every step, so no stack depth suffices (first conjunct), and the
partial-function semantics marks the same input divergent (second
conjunct) — contradicting the documented contract that sanitization always
returns (the value, and for an empty declared default, the empty value). -/
theorem c2_default_null_diverges (k : String) (o : Record) :
    (∀ n, toSanitizationN n [] TYPES [dfltNullCfg] .null k o = none) ∧
    toSanitization [] TYPES [dfltNullCfg] .null k o = none := by
  constructor
  · intro n
    cases n with
    | zero => rfl
    | succ n =>
      rw [toSanitizationN]
      cases n with
      | zero => rfl
      | succ m =>
        rw [sanitizeAllN]
        simp [sanitizationN_defaultNull_diverges k o]
  · rw [toSanitization_single]
    rw [sanitization]
    rfl

/-- C3 (amended): for a union given as a list of type names (with no
applicable rule functions), resolution applies the registered coercers in
declared order and the first function that succeeds supplies the result
(`fns.some`); if every function fails the original value is returned.  For
a list of alternative configs, the wrapper evaluates every alternative and
keeps the LAST result (the `some` callback returns `undefined`, so the
iteration never stops at a success). -/
theorem c3_union_resolution (rules : Registry) (types : TypeTable) (ns : List String)
    (dflt : Option Value) (items : Option (List Config)) (extra : List (String × Value))
    (v : Value) (k : String) (o : Record)
    (hv : isEmpty v = false)
    (hr : ruleFns rules (Config.mk (some (.union ns)) dflt items extra) = []) :
    toSanitization rules types [Config.mk (some (.union ns)) dflt items extra] v k o
      = some (runSome (typeFns types (Config.mk (some (.union ns)) dflt items extra)) v k o)
    ∧ ((∀ fn ∈ typeFns types (Config.mk (some (.union ns)) dflt items extra), fn v k o = none) →
      toSanitization rules types [Config.mk (some (.union ns)) dflt items extra] v k o = some v)
    ∧ (∀ cs rs, sanitizeAll rules types cs v k o = some rs →
      toSanitization rules types cs v k o = some (rs.getLastD v)) := by
  have hbig : toSanitization rules types [Config.mk (some (.union ns)) dflt items extra] v k o
      = some (runSome (typeFns types (Config.mk (some (.union ns)) dflt items extra)) v k o) := by
    rw [toSanitization_single]
    rw [sanitization]
    simp only [hv, Bool.false_eq_true, if_false]
    rw [sanitizationBody]
    rw [sanitizeChain]
    have hu : isUnion (Config.mk (some (.union ns)) dflt items extra) = true := rfl
    simp only [hu, if_true]
    rw [chainFns, hr, List.append_nil]
    have hty : ¬ (Config.mk (some (.union ns)) dflt items extra).type
        = some (TypeSpec.name "array") := by
      simp [Config.type]
    simp only [if_neg hty]
  refine ⟨hbig, fun hall => ?_, fun cs rs h => ?_⟩
  · rw [hbig, runSome_all_none _ _ _ _ hall]
  · rw [toSanitization, h]

/-- C3 witness: union `[integer, string]` on `"123"` resolves to the
integer `123` (the first coercer succeeds). -/
theorem c3_witness :
    toSanitization [] TYPES [unionIntStrCfg] (.str "123") "p" [] = some (.num (intJNum 123)) :=
  ((c3_union_resolution [] TYPES ["integer", "string"] none none [] (.str "123") "p" []
    (by decide) rfl).1).trans (by rfl)

/-- C3 counterexample: the same union written as a LIST of alternative
configs `[{type: integer}, {type: string}]` on `"123"` yields the string
`"123"` (the last alternative), not the first success `123`. -/
theorem c3_counterexample :
    toSanitization [] TYPES [intCfg, strCfg] (.str "123") "p" [] = some (.str "123") ∧
    ¬ toSanitization [] TYPES [intCfg, strCfg] (.str "123") "p" [] = some (.num (intJNum 123)) := by
  have h : toSanitization [] TYPES [intCfg, strCfg] (.str "123") "p" [] = some (.str "123") :=
    (sanitizationN_sound 9 [] TYPES).2.2.2.1 [intCfg, strCfg] (.str "123") "p" [] _ rfl
  refine ⟨h, fun hcontra => ?_⟩
  rw [h] at hcontra
  exact Value.noConfusion (Option.some.inj hcontra)

/-- C4 (amended): the compiler filter removes exactly the keys `type`
and `default` before the rule-registry lookup, so rules registered under
those two names never enter any chain (a registry extended at `type` and
`default` compiles every config to the same chain); but `items` and
`properties` are NOT filtered: when such a key is present on the config
and a rule of that name is registered, it is looked up and used. -/
theorem c4_reserved_rule_keys :
    (∀ c : Config, ¬ "type" ∈ ruleKeys c ∧ ¬ "default" ∈ ruleKeys c)
    ∧ (∀ (f g : RuleFactory) (rules : Registry) (types : TypeTable) (c : Config),
      chainFns (("type", f) :: ("default", g) :: rules) types c = chainFns rules types c)
    ∧ "items" ∈ usedRuleKeys itemsRuleRegistry itemsKeyCfg
    ∧ "properties" ∈ usedRuleKeys propsRuleRegistry propsKeyCfg := by
  refine ⟨fun c => ⟨?_, ?_⟩, fun f g rules types c => ?_, by decide, by decide⟩
  · intro hmem
    have := (List.mem_filter.mp hmem).2
    simp at this
  · intro hmem
    have := (List.mem_filter.mp hmem).2
    simp at this
  · rw [chainFns, chainFns]
    congr 1
    rw [ruleFns, ruleFns]
    refine List.filterMap_congr (fun k hk => ?_)
    have hne : ¬ (k = "type") ∧ ¬ (k = "default") := by
      simpa using (List.mem_filter.mp hk).2
    have h1 : ¬ ("type" = k) := fun h => hne.1 h.symm
    have h2 : ¬ ("default" = k) := fun h => hne.2 h.symm
    rw [lookupKey, lookupKey]
    simp [h1, h2]

/-- C4 counterexample: a rule registered under the reserved name `items`
IS looked up and applied — with `{type: string, items: []}` and the
`items` marker rule registered, sanitizing `"x"` produces the marker. -/
theorem c4_counterexample :
    usedRuleKeys itemsRuleRegistry itemsKeyCfg = ["items"] ∧
    toSanitization itemsRuleRegistry TYPES [itemsKeyCfg] (.str "x") "p" []
      = some (.str "items-rule-applied") := by
  refine ⟨by decide, ?_⟩
  exact (sanitizationN_sound 9 itemsRuleRegistry TYPES).2.2.2.1 [itemsKeyCfg] (.str "x") "p" [] _ rfl

/-- C7: for a schema of type `array` with a declared `items` schema and a
non-empty input, the chain result is wrapped into a single-element
sequence unless already a sequence, every element is sanitized
independently through the compiled `items` sanitizer, and the whole array
result is the failure value `null` exactly when some element result is
empty. -/
theorem c7_array_items (rules : Registry) (types : TypeTable) (dflt : Option Value)
    (itemCfgs : List Config) (extra : List (String × Value)) (v : Value) (k : String)
    (o : Record) (hv : isEmpty v = false) :
    (∀ vals, sanitizeItems rules types itemCfgs
        (wrapArray (sanitizeChain rules types
          (Config.mk (some (.name "array")) dflt (some itemCfgs) extra) v k o)) k o = some vals →
      toSanitization rules types [Config.mk (some (.name "array")) dflt (some itemCfgs) extra] v k o
        = some (if vals.any isEmpty then .null else .arr vals))
    ∧ (sanitizeItems rules types itemCfgs
        (wrapArray (sanitizeChain rules types
          (Config.mk (some (.name "array")) dflt (some itemCfgs) extra) v k o)) k o = none →
      toSanitization rules types [Config.mk (some (.name "array")) dflt (some itemCfgs) extra] v k o
        = none) := by
  have hred : toSanitization rules types
      [Config.mk (some (.name "array")) dflt (some itemCfgs) extra] v k o
      = itemsResult (sanitizeItems rules types itemCfgs
          (wrapArray (sanitizeChain rules types
            (Config.mk (some (.name "array")) dflt (some itemCfgs) extra) v k o)) k o) := by
    rw [toSanitization_single]
    rw [sanitization]
    simp only [hv, Bool.false_eq_true, if_false]
    rw [sanitizationBody]
    rfl
  constructor
  · intro vals hvals
    rw [hred, hvals]
    rfl
  · intro hnone
    rw [hred, hnone]
    rfl

/-- C7 witness: `{type: array, items: {type: integer}}` on the bare scalar
`"5"` gives `[5]` (wrapped, then coerced). -/
theorem c7_witness :
    toSanitization [] TYPES [Config.mk (some (.name "array")) none (some [intCfg]) []]
      (.str "5") "p" [] = some (.arr [.num (intJNum 5)]) := by
  have h := (c7_array_items [] TYPES none [intCfg] [] (.str "5") "p" [] (by decide)).1
    [.num (intJNum 5)]
    ((sanitizationN_sound 9 [] TYPES).2.2.1 [intCfg] _ "p" [] _ rfl)
  exact h.trans (by rfl)

/-- C9: for a schema declaring a default, sanitizing the missing (`null`)
input gives the same result as sanitizing the default value. -/
theorem c9_default_substitution (rules : Registry) (types : TypeTable) (c : Config)
    (d : Value) (k : String) (o : Record) (hd : c.dflt = some d) :
    toSanitization rules types [c] .null k o = toSanitization rules types [c] d k o := by
  rw [toSanitization_single, toSanitization_single]
  have hl : sanitization rules types c .null k o
      = if isEmpty d = true then none else sanitizationBody rules types c d k o := by
    rw [sanitization]
    simp only [isEmpty, if_true, hd]
  have hr2 : sanitization rules types c d k o
      = if isEmpty d = true then none else sanitizationBody rules types c d k o := by
    rw [sanitization]
    by_cases hde : isEmpty d = true
    · have hdn : d = .null := by cases d <;> simp [isEmpty] at hde ⊢
      subst hdn
      simp only [isEmpty, if_true, hd]
    · simp only [hde, if_false]
      simp only [Bool.not_eq_true] at hde
      simp only [hde, Bool.false_eq_true, if_false]
  rw [hl, hr2]

/-- C9 witness: `{type: string, default: "test"}`: the missing input and
the input `"test"` sanitize identically. -/
theorem c9_witness :
    toSanitization [] TYPES [dfltTestCfg] .null "p" []
      = toSanitization [] TYPES [dfltTestCfg] (.str "test") "p" [] :=
  c9_default_substitution [] TYPES dfltTestCfg (.str "test") "p" [] rfl

/-- A whitespace-only string trims to nothing for the number parse. -/
theorem stringToNumber_whitespace (s : String) (hs : s.data.all isJsWhitespace = true) :
    stringToNumber s = some (intJNum 0) := by
  have h1 : s.data.dropWhile isJsWhitespace = [] := by
    rw [List.dropWhile_eq_nil_iff]
    intro x hx
    exact List.all_eq_true.mp hs x hx
  rw [stringToNumber]
  simp only [h1, List.reverse_nil, List.dropWhile_nil]

/-- C10: the number and integer coercers accept the empty string and
whitespace-only strings (finite, coercing to `0`), and the integer coercer
accepts booleans (`true` is `1`, `false` is `0`); sanitizing `""` under
`{type: integer}` or `{type: number}` therefore returns the number `0`
rather than falling back to the original string. -/
theorem c10_empty_and_boolean_coercions (s : String) (hs : s.data.all isJsWhitespace = true) :
    toNumber (.str s) = some (.num (intJNum 0)) ∧
    toInteger (.str s) = some (.num (intJNum 0)) ∧
    toInteger (.bool true) = some (.num (intJNum 1)) ∧
    toInteger (.bool false) = some (.num (intJNum 0)) ∧
    toSanitization [] TYPES [intCfg] (.str "") "p" [] = some (.num (intJNum 0)) ∧
    toSanitization [] TYPES [numCfg] (.str "") "p" [] = some (.num (intJNum 0)) := by
  have h := stringToNumber_whitespace s hs
  refine ⟨?_, ?_, rfl, rfl, ?_, ?_⟩
  · rw [toNumber]
    simp [jsToNumber, h]
  · rw [toInteger]
    simp [jsToNumber, h, JNum.isInt, intJNum]
  · exact (sanitizationN_sound 9 [] TYPES).2.2.2.1 [intCfg] (.str "") "p" [] _ rfl
  · exact (sanitizationN_sound 9 [] TYPES).2.2.2.1 [numCfg] (.str "") "p" [] _ rfl

/-- C10 witness at the whitespace-only string `" "`. -/
theorem c10_witness :
    toNumber (.str " ") = some (.num (intJNum 0)) ∧
    toInteger (.str " ") = some (.num (intJNum 0)) ∧
    toInteger (.bool true) = some (.num (intJNum 1)) ∧
    toInteger (.bool false) = some (.num (intJNum 0)) ∧
    toSanitization [] TYPES [intCfg] (.str "") "p" [] = some (.num (intJNum 0)) ∧
    toSanitization [] TYPES [numCfg] (.str "") "p" [] = some (.num (intJNum 0)) :=
  c10_empty_and_boolean_coercions " " (by decide)

/-- C8: the boolean coercer never fails; it returns `false` exactly when
the value is (under strict `===` comparison) one of `0`, `false`, `""`,
`"0"`, `"false"`, and `true` for every other value; sanitizing `"2"` under
`{type: boolean}` gives `true` while `"0"` and `"false"` give `false`. -/
theorem c8_boolean_exact_set :
    (∀ v, ∃ b, toBoolean v = some (.bool b)) ∧
    (∀ v, toBoolean v = some (.bool false) ↔
      (v = .num (intJNum 0) ∨ v = .bool false ∨ v = .str "" ∨ v = .str "0" ∨ v = .str "false")) ∧
    toSanitization [] TYPES [boolCfg] (.str "2") "p" [] = some (.bool true) ∧
    toSanitization [] TYPES [boolCfg] (.str "0") "p" [] = some (.bool false) ∧
    toSanitization [] TYPES [boolCfg] (.str "false") "p" [] = some (.bool false) := by
  refine ⟨fun v => ?_, fun v => ?_, ?_, ?_, ?_⟩
  · cases v <;> exact ⟨_, rfl⟩
  · cases v with
    | null => simp [toBoolean]
    | bool b => cases b <;> simp [toBoolean]
    | num n =>
      cases n with
      | mk m d cn =>
        constructor
        · intro h
          by_cases h1 : m = 0
          · by_cases h2 : d = 0
            · subst h1
              subst h2
              left
              rfl
            · exfalso
              simp [toBoolean, h1, h2] at h
          · exfalso
            simp [toBoolean, h1] at h
        · rintro (h | h | h | h | h)
          · injection h with h0
            have h1 : m = 0 := congrArg JNum.mant h0
            have h2 : d = 0 := congrArg JNum.dexp h0
            subst h1
            subst h2
            simp [toBoolean]
          all_goals simp at h
    | str s =>
      simp [toBoolean]
      tauto
    | arr vs => simp [toBoolean]
    | obj fs => simp [toBoolean]
    | date ms => simp [toBoolean]
  · exact (sanitizationN_sound 9 [] TYPES).2.2.2.1 [boolCfg] (.str "2") "p" [] _ rfl
  · exact (sanitizationN_sound 9 [] TYPES).2.2.2.1 [boolCfg] (.str "0") "p" [] _ rfl
  · exact (sanitizationN_sound 9 [] TYPES).2.2.2.1 [boolCfg] (.str "false") "p" [] _ rfl

theorem lookupKey_append_right {α : Type} (l : List (String × α)) (k : String) (v : α)
    (h : lookupKey l k = none) : lookupKey (l ++ [(k, v)]) k = some v := by
  induction l with
  | nil => simp [lookupKey]
  | cons p rest ih =>
    rw [lookupKey] at h
    rw [List.cons_append, lookupKey]
    by_cases hp : p.1 = k
    · simp only [hp, if_true] at h
      exact Option.noConfusion h
    · simp only [hp, if_false] at h ⊢
      exact ih h

theorem any_false_lookupKey_none {α : Type} (l : List (String × α)) (k : String)
    (h : ¬ (l.any (fun p => p.1 = k)) = true) : lookupKey l k = none := by
  induction l with
  | nil => rfl
  | cons p rest ih =>
    rw [List.any_cons] at h
    rw [lookupKey]
    by_cases hp : p.1 = k
    · exact absurd (by simp [hp]) h
    · simp only [hp, if_false]
      exact ih (fun h2 => h (by simp [h2]))

theorem lookupKey_map_set_self {α : Type} (l : List (String × α)) (k : String) (v : α)
    (h : (l.any (fun p => p.1 = k)) = true) :
    lookupKey (l.map (fun p => if p.1 = k then (k, v) else p)) k = some v := by
  induction l with
  | nil => simp at h
  | cons p rest ih =>
    rw [List.map_cons, lookupKey]
    by_cases hp : p.1 = k
    · simp [hp, lookupKey]
    · simp only [hp, if_false]
      have h2 : p.1 = k ∨ (rest.any (fun p => p.1 = k)) = true := by
        have h3 := h
        rw [List.any_cons] at h3
        simpa using h3
      rcases h2 with h3 | h3
      · exact absurd h3 hp
      · exact ih h3

/-- Updating key `k` makes a lookup of `k` find the new value. -/
theorem lookupKey_assocSet_self {α : Type} (l : List (String × α)) (k : String) (v : α) :
    lookupKey (assocSet l k v) k = some v := by
  rw [assocSet]
  by_cases hc : (l.any (fun p => p.1 = k)) = true
  · simp only [hc, if_true]
    exact lookupKey_map_set_self l k v hc
  · simp only [hc, if_false]
    exact lookupKey_append_right l k v (any_false_lookupKey_none l k hc)

/-- Unfolding equations for `lookupKey`. -/
theorem lookupKey_nil {α : Type} (k : String) : lookupKey ([] : List (String × α)) k = none := rfl

theorem lookupKey_cons {α : Type} (p : String × α) (rest : List (String × α)) (k : String) :
    lookupKey (p :: rest) k = if p.1 = k then some p.2 else lookupKey rest k := rfl

theorem lookupKey_map_set_other {α : Type} (l : List (String × α)) (k k2 : String) (v : α)
    (hne : ¬ k2 = k) :
    lookupKey (l.map (fun p => if p.1 = k then (k, v) else p)) k2 = lookupKey l k2 := by
  induction l with
  | nil => rfl
  | cons p rest ih =>
    rw [List.map_cons, lookupKey_cons, lookupKey_cons]
    by_cases hp : p.1 = k
    · have hk2 : ¬ (k = k2) := fun h => hne h.symm
      have hp2 : ¬ (p.1 = k2) := fun h => hne (by rw [← h, hp])
      simp only [hp, if_true, hk2, hp2, if_false]
      exact ih
    · simp only [hp, if_false]
      by_cases hp2 : p.1 = k2
      · simp only [hp2, if_true]
      · simp only [hp2, if_false]
        exact ih

theorem lookupKey_append_other {α : Type} (l : List (String × α)) (k k2 : String) (v : α)
    (hne : ¬ k2 = k) : lookupKey (l ++ [(k, v)]) k2 = lookupKey l k2 := by
  induction l with
  | nil =>
    have : ¬ (k = k2) := fun h => hne h.symm
    simp [lookupKey_nil, lookupKey_cons, this]
  | cons p rest ih =>
    rw [List.cons_append, lookupKey_cons, lookupKey_cons]
    by_cases hp2 : p.1 = k2
    · simp only [hp2, if_true]
    · simp only [hp2, if_false]
      exact ih

/-- Updating key `k` leaves lookups of other keys unchanged. -/
theorem lookupKey_assocSet_other {α : Type} (l : List (String × α)) (k k2 : String) (v : α)
    (hne : ¬ k2 = k) : lookupKey (assocSet l k v) k2 = lookupKey l k2 := by
  rw [assocSet]
  by_cases hc : (l.any (fun p => p.1 = k)) = true
  · simp only [hc, if_true]
    exact lookupKey_map_set_other l k k2 v hne
  · simp only [hc, if_false]
    exact lookupKey_append_other l k k2 v hne

/-- Membership in the keys after an update. -/
theorem keysOf_assocSet_iff {α : Type} (l : List (String × α)) (k k2 : String) (v : α) :
    k2 ∈ keysOf (assocSet l k v) ↔ (k2 ∈ keysOf l ∨ k2 = k) := by
  rw [assocSet]
  by_cases hc : (l.any (fun p => p.1 = k)) = true
  · simp only [hc, if_true, keysOf]
    constructor
    · intro hmem
      rcases List.mem_map.mp hmem with ⟨q, hq, hqe⟩
      rcases List.mem_map.mp hq with ⟨p, hp, hpe⟩
      by_cases hpk : p.1 = k
      · right
        rw [← hpe] at hqe
        simp only [hpk, if_true] at hqe
        exact hqe ▸ rfl
      · left
        rw [← hpe] at hqe
        simp only [hpk, if_false] at hqe
        exact List.mem_map.mpr ⟨p, hp, hqe⟩
    · intro hmem
      rcases hmem with hmem | hmem
      · rcases List.mem_map.mp hmem with ⟨p, hp, hpe⟩
        by_cases hpk : p.1 = k
        · exact List.mem_map.mpr
            ⟨(k, v), List.mem_map.mpr ⟨p, hp, by simp [hpk]⟩, by rw [← hpe, hpk]⟩
        · exact List.mem_map.mpr ⟨p, List.mem_map.mpr ⟨p, hp, by simp [hpk]⟩, hpe⟩
      · rcases List.any_eq_true.mp hc with ⟨p, hp, hpk⟩
        have hpk2 : p.1 = k := of_decide_eq_true hpk
        exact List.mem_map.mpr
          ⟨(k, v), List.mem_map.mpr ⟨p, hp, by simp [hpk2]⟩, hmem ▸ rfl⟩
  · simp only [hc, if_false, keysOf, List.map_append, List.mem_append]
    simp

theorem runFields_nil (input acc : Record) : runFields [] input acc = some acc := rfl

theorem runFields_cons (param : String) (fn : FieldFn) (rest : List (String × FieldFn))
    (input acc : Record) :
    runFields ((param, fn) :: rest) input acc =
      (match fn (if hasOwn input param then recGet input param else .null) param input with
      | none => none
      | some sanValue =>
        runFields rest input
          (if hasOwn input param || !(isEmpty sanValue) then assocSet acc param sanValue
           else acc)) := rfl

/-- Keys of a successful field-loop result come from the field map or the
accumulator. -/
theorem runFields_keys (input : Record) :
    ∀ (m : List (String × FieldFn)) (acc out : Record), runFields m input acc = some out →
      ∀ k2, k2 ∈ keysOf out → k2 ∈ keysOf m ∨ k2 ∈ keysOf acc := by
  intro m
  induction m with
  | nil =>
    intro acc out h k2 hk
    rw [runFields_nil] at h
    rw [← Option.some.inj h] at hk
    exact Or.inr hk
  | cons pf rest ih =>
    intro acc out h k2 hk
    rcases pf with ⟨param, fn⟩
    rw [runFields_cons] at h
    cases hres : fn (if hasOwn input param then recGet input param else .null) param input with
    | none => rw [hres] at h; exact Option.noConfusion h
    | some sv =>
      rw [hres] at h
      rcases ih _ out h k2 hk with h1 | h1
      · exact Or.inl (List.mem_cons_of_mem _ h1)
      · by_cases hinc : (hasOwn input param || !(isEmpty sv)) = true
        · rw [if_pos hinc] at h1
          rcases (keysOf_assocSet_iff acc param k2 sv).mp h1 with h2 | h2
          · exact Or.inr h2
          · exact Or.inl (by rw [h2]; exact List.mem_cons_self _ _)
        · rw [if_neg hinc] at h1
          exact Or.inr h1

theorem buildSanitizations_keys (rules : Registry) (types : TypeTable) :
    ∀ (els : List Element) (acc : List (String × FieldFn)) (k2 : String),
      k2 ∈ keysOf (buildSanitizations rules types els acc) →
      k2 ∈ els.map Element.name ∨ k2 ∈ keysOf acc := by
  intro els
  induction els with
  | nil =>
    intro acc k2 hk
    rw [buildSanitizations] at hk
    exact Or.inr hk
  | cons el rest ih =>
    intro acc k2 hk
    rcases el with ⟨nm, props, cfg⟩
    rw [buildSanitizations] at hk
    rcases ih _ k2 hk with h1 | h1
    · exact Or.inl (List.mem_cons_of_mem _ h1)
    · rcases (keysOf_assocSet_iff acc nm k2 _).mp h1 with h2 | h2
      · exact Or.inr h2
      · exact Or.inl (by rw [h2]; exact List.mem_cons_self _ _)

/-- C5: the output record of a compiled record sanitizer only contains
keys declared in the schema collection (unknown input fields are
dropped), and compiling zero named schemas yields a sanitizer returning
the empty record on every input. -/
theorem c5_unknown_field_exclusion (rules : Registry) (types : TypeTable)
    (elements : List Element) (input : Value) (out : Record)
    (h : sanitizeRecord rules types elements input = some out) :
    (∀ k2, k2 ∈ keysOf out → k2 ∈ elements.map Element.name) ∧
    (∀ v, sanitizeRecord rules types [] v = some []) := by
  constructor
  · intro k2 hk
    rw [sanitizeRecord] at h
    by_cases hlen : elements.length < 1
    · rw [if_pos hlen] at h
      rw [← Option.some.inj h] at hk
      simp [keysOf] at hk
    · rw [if_neg hlen] at h
      rcases runFields_keys (inputRecord input) _ [] out h k2 hk with h1 | h1
      · rcases buildSanitizations_keys rules types elements [] k2 h1 with h2 | h2
        · exact h2
        · simp [keysOf] at h2
      · simp [keysOf] at h1
  · intro v
    rw [sanitizeRecord]
    simp

/-- C5 witness: one declared field `a` of type string; the input has `a`
and an undeclared field `zz`; the output contains only `a`. -/
theorem c5_witness :
    (∀ k2, k2 ∈ keysOf [("a", Value.str "x")] →
      k2 ∈ [Element.mk "a" [] strCfg].map Element.name) ∧
    (∀ v, sanitizeRecord [] TYPES [] v = some []) := by
  refine c5_unknown_field_exclusion [] TYPES [Element.mk "a" [] strCfg]
    (.obj [("a", .str "x"), ("zz", .bool true)]) [("a", .str "x")] ?_
  have hx : toSanitization [] TYPES [strCfg] (.str "x") "a"
      [("a", Value.str "x"), ("zz", Value.bool true)] = some (.str "x") :=
    (sanitizationN_sound 9 [] TYPES).2.2.2.1 _ _ _ _ _ rfl
  rw [sanitizeRecord, if_neg (by decide)]
  rw [buildSanitizations, buildSanitizations]
  show (match toSanitization [] TYPES [strCfg] (.str "x") "a"
      [("a", Value.str "x"), ("zz", Value.bool true)] with
    | none => none
    | some sanValue =>
      runFields [] [("a", Value.str "x"), ("zz", Value.bool true)]
        (if hasOwn [("a", Value.str "x"), ("zz", Value.bool true)] "a" || !(isEmpty sanValue)
         then assocSet [] "a" sanValue else [])) = some [("a", Value.str "x")]
  rw [hx]
  rfl

/-- Fields the loop never visits keep their accumulator state. -/
theorem runFields_not_mem (input : Record) :
    ∀ (m : List (String × FieldFn)) (acc out : Record) (param : String),
      ¬ param ∈ keysOf m → runFields m input acc = some out →
      (lookupKey out param = lookupKey acc param ∧
        (param ∈ keysOf out ↔ param ∈ keysOf acc)) := by
  intro m
  induction m with
  | nil =>
    intro acc out param hnm h
    rw [runFields_nil] at h
    rw [← Option.some.inj h]
    exact ⟨rfl, Iff.rfl⟩
  | cons pf rest ih =>
    intro acc out param hnm h
    rcases pf with ⟨q, g⟩
    have hq : ¬ param = q := fun he => hnm (by rw [he]; exact List.mem_cons_self _ _)
    have hrest : ¬ param ∈ keysOf rest := fun hm => hnm (List.mem_cons_of_mem _ hm)
    rw [runFields_cons] at h
    cases hres : g (if hasOwn input q then recGet input q else .null) q input with
    | none => rw [hres] at h; exact Option.noConfusion h
    | some sv =>
      rw [hres] at h
      obtain ⟨h1, h2⟩ := ih _ out param hrest h
      by_cases hinc : (hasOwn input q || !(isEmpty sv)) = true
      · rw [if_pos hinc] at h1 h2
        refine ⟨h1.trans (lookupKey_assocSet_other acc q param sv hq), ?_⟩
        rw [h2, keysOf_assocSet_iff]
        constructor
        · rintro (hm | hm)
          · exact hm
          · exact absurd hm hq
        · exact Or.inl
      · rw [if_neg hinc] at h1 h2
        exact ⟨h1, h2⟩

/-- What the loop does at a field it visits exactly once. -/
theorem runFields_mem_spec (input : Record) :
    ∀ (m : List (String × FieldFn)) (acc out : Record) (param : String) (fn : FieldFn),
      (keysOf m).Nodup → (param, fn) ∈ m → ¬ param ∈ keysOf acc →
      runFields m input acc = some out →
      ∃ sv, fn (if hasOwn input param then recGet input param else .null) param input = some sv ∧
        ((hasOwn input param = true ∨ ¬ sv = .null) → lookupKey out param = some sv) ∧
        (hasOwn input param = false → sv = .null → ¬ param ∈ keysOf out) := by
  intro m
  induction m with
  | nil =>
    intro acc out param fn _ hmem _ _
    exact absurd hmem (List.not_mem_nil _)
  | cons pf rest ih =>
    intro acc out param fn hnd hmem hacc h
    rcases pf with ⟨q, g⟩
    rw [runFields_cons] at h
    cases hres : g (if hasOwn input q then recGet input q else .null) q input with
    | none => rw [hres] at h; exact Option.noConfusion h
    | some sv0 =>
      rw [hres] at h
      replace h : runFields rest input
          (if (hasOwn input q || !(isEmpty sv0)) = true then assocSet acc q sv0 else acc)
          = some out := h
      rcases List.mem_cons.mp hmem with hhead | htail
      · have hpq : param = q := congrArg Prod.fst hhead
        have hfg : fn = g := congrArg Prod.snd hhead
        subst hpq
        subst hfg
        have hqrest : ¬ param ∈ keysOf rest := by
          have := List.nodup_cons.mp hnd
          exact this.1
        obtain ⟨h1, h2⟩ := runFields_not_mem input rest _ out param hqrest h
        refine ⟨sv0, hres, ?_, ?_⟩
        · intro hinc
          have hb : (hasOwn input param || !(isEmpty sv0)) = true := by
            rcases hinc with hi | hi
            · simp [hi]
            · have : isEmpty sv0 = false := by cases sv0 <;> simp [isEmpty] at hi ⊢
              simp [this]
          rw [if_pos hb] at h1
          rw [h1]
          exact lookupKey_assocSet_self acc param sv0
        · intro hown hnull
          subst hnull
          have hb : ¬ (hasOwn input param || !(isEmpty Value.null)) = true := by
            simp [hown, isEmpty]
          rw [if_neg hb] at h2
          intro hm
          exact hacc (h2.mp hm)
      · have hq : ¬ param = q := by
          intro he
          have hmk : param ∈ keysOf rest :=
            List.mem_map.mpr ⟨(param, fn), htail, rfl⟩
          have := List.nodup_cons.mp hnd
          rw [he] at hmk
          exact this.1 hmk
        have hnd2 : (keysOf rest).Nodup := (List.nodup_cons.mp hnd).2
        have hacc2 : ¬ param ∈ keysOf
            (if (hasOwn input q || !(isEmpty sv0)) = true then assocSet acc q sv0 else acc) := by
          by_cases hinc : (hasOwn input q || !(isEmpty sv0)) = true
          · rw [if_pos hinc]
            rw [keysOf_assocSet_iff]
            rintro (hm | hm)
            · exact hacc hm
            · exact hq hm
          · rw [if_neg hinc]
            exact hacc
        have h3 := h
        by_cases hinc : (hasOwn input q || !(isEmpty sv0)) = true
        · rw [if_pos hinc] at h3
          exact ih _ out param fn hnd2 htail (by rw [if_pos hinc] at hacc2; exact hacc2) h3
        · rw [if_neg hinc] at h3
          exact ih _ out param fn hnd2 htail (by rw [if_neg hinc] at hacc2; exact hacc2) h3

/-- C6: for a compiled field map (unique keys, as JS object keys are) and
any input record, a field name held as a direct property of the input is
sanitized from its value and always appears in the output, even when the
sanitized value is empty; a field name the input lacks is sanitized from
`null` and appears in the output exactly when the result is not `null`
(this is how defaults populate absent fields, and fields without defaults
stay absent). -/
theorem c6_field_presence (m : List (String × FieldFn)) (input out : Record)
    (param : String) (fn : FieldFn)
    (hnd : (keysOf m).Nodup) (hmem : (param, fn) ∈ m)
    (hrun : runFields m input [] = some out) :
    (hasOwn input param = true →
      ∃ sv, fn (recGet input param) param input = some sv ∧ lookupKey out param = some sv) ∧
    (hasOwn input param = false →
      ∃ sv, fn .null param input = some sv ∧
        (¬ sv = .null → lookupKey out param = some sv) ∧
        (sv = .null → ¬ param ∈ keysOf out)) := by
  obtain ⟨sv, hsv, hlook, hmiss⟩ :=
    runFields_mem_spec input m [] out param fn hnd hmem (by simp [keysOf]) hrun
  constructor
  · intro hown
    simp only [hown, if_true] at hsv
    exact ⟨sv, hsv, hlook (Or.inl hown)⟩
  · intro hown
    simp only [hown, Bool.false_eq_true, if_false] at hsv
    exact ⟨sv, hsv, fun hnn => hlook (Or.inr hnn), fun hnull => hmiss hown hnull⟩

/-- C6 witness: a single field `b` with `{type: string, default: "test"}`
and an input that lacks `b`: sanitization of the missing field yields the
default, which is not empty, so `b` appears in the output. -/
theorem c6_witness :
    (hasOwn ([] : Record) "b" = true →
      ∃ sv, (fun v k o => toSanitization [] TYPES [dfltTestCfg] v k o)
        (recGet ([] : Record) "b") "b" ([] : Record) = some sv ∧
        lookupKey [("b", Value.str "test")] "b" = some sv) ∧
    (hasOwn ([] : Record) "b" = false →
      ∃ sv, (fun v k o => toSanitization [] TYPES [dfltTestCfg] v k o)
        Value.null "b" ([] : Record) = some sv ∧
        (¬ sv = .null → lookupKey [("b", Value.str "test")] "b" = some sv) ∧
        (sv = .null → ¬ "b" ∈ keysOf [("b", Value.str "test")])) := by
  refine c6_field_presence [("b", fun v k o => toSanitization [] TYPES [dfltTestCfg] v k o)]
    [] [("b", Value.str "test")] "b" _ (by decide) (List.mem_singleton.mpr rfl) ?_
  have hb : toSanitization [] TYPES [dfltTestCfg] Value.null "b" [] = some (.str "test") :=
    (sanitizationN_sound 9 [] TYPES).2.2.2.1 _ _ _ _ _ rfl
  show (match toSanitization [] TYPES [dfltTestCfg] Value.null "b" [] with
    | none => none
    | some sanValue =>
      runFields [] []
        (if hasOwn ([] : Record) "b" || !(isEmpty sanValue)
         then assocSet [] "b" sanValue else [])) = some [("b", Value.str "test")]
  rw [hb]
  rfl
